import Mathlib

set_option maxHeartbeats 1000000

/- Shallow embedding of salt/crypt.py: the Crypticle authenticated-encryption
   class, base64 key-string handling, the Auth handshake logic, the SAuth
   retry loop, and MasterKeys initialisation.  Byte strings are modelled as
   `List Nat` (one byte value per element); Python strings at the handshake
   level are modelled as `String`.  External libraries (the PyCrypto AES
   block cipher, hashlib/hmac HMAC-SHA256, the M2Crypto RSA operations) are
   modelled as explicit function parameters. -/

/-- Python exception outcomes raised by the embedded code. -/
inductive PyErr where
  | authenticationError
  | assertionError
  | binasciiError
  | valueError
  | keyError
  | indexError
  | ioError
  | typeError
deriving DecidableEq

/-- Byte strings: one byte value per list element. -/
abbrev Bytes := List Nat

/-- External cryptographic primitives used by Crypticle (the PyCrypto AES
block cipher keyed by the AES key, and HMAC-SHA256 from hmac/hashlib),
abstracted as pure functions. -/
structure CryptoPrims where
  encBlock : Bytes → Bytes → Bytes
  decBlock : Bytes → Bytes → Bytes
  hmacSha256 : Bytes → Bytes → Bytes

/-- `Crypticle.AES_BLOCK_SIZE`. -/
def AES_BLOCK_SIZE : Nat := 16

/-- `Crypticle.SIG_SIZE` (the SHA-256 digest size). -/
def SIG_SIZE : Nat := 32

/-- Byte-wise xor of two byte strings (the CBC chaining operation). -/
def xorB (a b : Bytes) : Bytes := List.zipWith (fun x y => x ^^^ y) a b

/-- Split a byte string into AES-block-sized chunks, as the CBC mode of the
block cipher iterates over its input. -/
def chunks16 (l : Bytes) : List Bytes :=
  if h : l = [] then []
  else l.take 16 :: chunks16 (l.drop 16)
termination_by l.length
decreasing_by
  simp only [List.length_drop]
  have h0 : 0 < l.length := List.length_pos.mpr h
  omega

/-- CBC encryption over a list of blocks: each plaintext block is xored with
the previous ciphertext block (initially the IV) and sent through the block
cipher. -/
def cbcEnc (E : Bytes → Bytes) (prev : Bytes) : List Bytes → List Bytes
  | [] => []
  | b :: bs =>
    let c := E (xorB b prev)
    c :: cbcEnc E c bs

/-- CBC decryption over a list of blocks. -/
def cbcDec (D : Bytes → Bytes) (prev : Bytes) : List Bytes → List Bytes
  | [] => []
  | c :: cs => xorB (D c) prev :: cbcDec D c cs

/-- The padding computed in `Crypticle.encrypt`:
`pad = AES_BLOCK_SIZE - len(data) % AES_BLOCK_SIZE` bytes, each of value
`pad` (always at least one byte). -/
def pkcs7Pad (data : Bytes) : Bytes :=
  let pad := AES_BLOCK_SIZE - data.length % AES_BLOCK_SIZE
  data ++ List.replicate pad pad

/-- `Crypticle.encrypt`: pad, AES-CBC encrypt under the given IV (the source
draws it from `os.urandom`; here it is a parameter), prepend the IV, append
the HMAC-SHA256 tag computed over `IV || CT`. -/
def Crypticle.encrypt (P : CryptoPrims) (aes_key hmac_key iv data : Bytes) : Bytes :=
  let padded := pkcs7Pad data
  let body := iv ++ (cbcEnc (P.encBlock aes_key) iv (chunks16 padded)).flatten
  body ++ P.hmacSha256 hmac_key body

/-- `Crypticle.decrypt`: split off the trailing `SIG_SIZE` bytes as the tag,
recompute the HMAC over the remainder, compare by xor-accumulating into an
`or`-ed result, and only then AES-CBC decrypt and strip the padding.  The
final slice is Python `data[:-ord(data[-1])]`, which yields the empty string
when the last byte is zero and raises IndexError when the plaintext is
empty. -/
def Crypticle.decrypt (P : CryptoPrims) (aes_key hmac_key data : Bytes) : Except PyErr Bytes :=
  let sig := data.drop (data.length - SIG_SIZE)
  let body := data.take (data.length - SIG_SIZE)
  let mac_bytes := P.hmacSha256 hmac_key body
  if mac_bytes.length ≠ sig.length then .error .authenticationError
  else if ((List.zipWith (fun x y => x ^^^ y) mac_bytes sig).foldl (fun r z => r ||| z) 0) ≠ 0 then
    .error .authenticationError
  else
    let iv := body.take AES_BLOCK_SIZE
    let ct := body.drop AES_BLOCK_SIZE
    let pt := (cbcDec (P.decBlock aes_key) iv (chunks16 ct)).flatten
    match pt.getLast? with
    | none => .error .indexError
    | some last => .ok (if last = 0 then [] else pt.take (pt.length - last))

/-- The base64 alphabet: sextet value to ASCII code. -/
def b64Char (n : Nat) : Nat :=
  if n < 26 then 65 + n
  else if n < 52 then 97 + (n - 26)
  else if n < 62 then 48 + (n - 52)
  else if n = 62 then 43
  else 47

/-- ASCII code back to sextet value; `none` for characters outside the
alphabet. -/
def b64Index (c : Nat) : Option Nat :=
  if 65 ≤ c ∧ c ≤ 90 then some (c - 65)
  else if 97 ≤ c ∧ c ≤ 122 then some (c - 97 + 26)
  else if 48 ≤ c ∧ c ≤ 57 then some (c - 48 + 52)
  else if c = 43 then some 62
  else if c = 47 then some 63
  else none

/-- base64 encoding.  Python's `str.encode` inserts a newline every 76
characters; since `generate_key_string` immediately removes every newline,
the encoder is modelled without line breaks and the newline removal as a
filter. -/
def b64encode : Bytes → Bytes
  | [] => []
  | a :: b :: c :: rest =>
    b64Char (a / 4) :: b64Char (a % 4 * 16 + b / 16) ::
      b64Char (b % 16 * 4 + c / 64) :: b64Char (c % 64) :: b64encode rest
  | [a, b] => [b64Char (a / 4), b64Char (a % 4 * 16 + b / 16), b64Char (b % 16 * 4), 61]
  | [a] => [b64Char (a / 4), b64Char (a % 4 * 16), 61, 61]

/-- Whether a character belongs to the base64 alphabet or is the `=` pad. -/
def isB64 (c : Nat) : Bool := c = 61 || (b64Index c).isSome

/-- Decode groups of four base64 characters; `=` padding terminates the data
as in `binascii.a2b_base64`. -/
def b64decodeQuads : Bytes → Except PyErr Bytes
  | [] => .ok []
  | c1 :: c2 :: c3 :: c4 :: rest =>
    match b64Index c1, b64Index c2 with
    | some s1, some s2 =>
      if c3 = 61 then .ok [s1 * 4 + s2 / 16]
      else
        match b64Index c3 with
        | some s3 =>
          if c4 = 61 then .ok [s1 * 4 + s2 / 16, s2 % 16 * 16 + s3 / 4]
          else
            match b64Index c4 with
            | some s4 =>
              match b64decodeQuads rest with
              | .ok tail => .ok ((s1 * 4 + s2 / 16) :: (s2 % 16 * 16 + s3 / 4) :: (s3 % 4 * 64 + s4) :: tail)
              | .error e => .error e
            | none => .error .binasciiError
        | none => .error .binasciiError
    | _, _ => .error .binasciiError
  | _ => .error .binasciiError

/-- Python `str.decode` for base64: characters outside the alphabet
(newlines in particular) are ignored, then four-character groups are
decoded. -/
def b64decode (s : Bytes) : Except PyErr Bytes :=
  b64decodeQuads (s.filter (fun c => isB64 c))

/-- `Crypticle.generate_key_string`: `key_size // 8 + SIG_SIZE` fresh random
bytes, base64 encoded, with every newline removed. -/
def Crypticle.generate_key_string (urandom : Nat → Bytes) (key_size : Nat) : Bytes :=
  let key := urandom (key_size / 8 + SIG_SIZE)
  (b64encode key).filter (fun c => c ≠ 10)

/-- `Crypticle.extract_keys`: base64 decode the key string, assert that the
decoded length is `key_size / 8 + SIG_SIZE`, and split off the trailing
`SIG_SIZE` bytes as the HMAC key. -/
def Crypticle.extract_keys (key_string : Bytes) (key_size : Nat) : Except PyErr (Bytes × Bytes) :=
  match b64decode key_string with
  | .error e => .error e
  | .ok key =>
    if key.length = key_size / 8 + SIG_SIZE then
      .ok (key.take (key.length - SIG_SIZE), key.drop (key.length - SIG_SIZE))
    else .error .assertionError

/-- Python `key_str.split('_|-')`: split a byte string on the three-byte
separator `'_|-'` (byte values 95, 124, 45), scanning left to right with an
accumulator for the current part. -/
def splitSep : Bytes → Bytes → List Bytes
  | 95 :: 124 :: 45 :: rest, acc => acc.reverse :: splitSep rest []
  | c :: rest, acc => splitSep rest (c :: acc)
  | [], acc => [acc.reverse]

/-- External M2Crypto RSA operations used by the Auth class, with the
agent's private key and the signing public key fixed inside the oracle:
`privDecryptOaep` is `key.private_decrypt(-, RSA.pkcs1_oaep_padding)`,
`pubDecryptV` is `mkey.public_decrypt(-, 5)` for the pinned controller key
content given as first argument, `sha256hex` is
`hashlib.sha256(-).hexdigest()`, `loadPubKeyOk` tells whether
`RSA.load_pub_key` succeeds on a file with the given content, and
`sigVerify` is `verify_signature` under the installed signing public key. -/
structure RsaOps where
  privDecryptOaep : Bytes → Bytes
  pubDecryptV : Bytes → Bytes → Bytes
  sha256hex : Bytes → Bytes
  loadPubKeyOk : Bytes → Bool
  sigVerify : Bytes → Bytes → Bool

/-- The controller's handshake reply as read by `Auth.decrypt_aes` and
`Auth.verify_master`: optional dict entries are `Option`s; entry values are
Python 2 byte strings. -/
structure Payload where
  aes : Bytes
  sig : Option Bytes
  token : Option Bytes
  pub_key : Bytes
  pub_sig : Option Bytes

/-- The minion configuration options consulted by `Auth.verify_master`. -/
structure AuthOpts where
  open_mode : Bool
  verify_master_pubkey_sign : Bool
  always_verify_signature : Bool
  master_sign_key_name : Bytes

/-- Lines 338-346 of `Auth.decrypt_aes`: reached only after the `sig`
handling.  `'_|-' in key_str` holds exactly when splitting on the separator
yields at least two parts. -/
def decrypt_aes_tail (R : RsaOps) (p : Payload) (key_str : Bytes) (master_pub : Bool) : List Bytes :=
  if (splitSep key_str []).length ≥ 2 then splitSep key_str []
  else
    match p.token with
    | some t => [key_str, R.privDecryptOaep t]
    | none => if master_pub = false then [key_str, []] else [[], []]

/-- `Auth.decrypt_aes`.  The pinned controller public key file is passed as
`pinned` (`none` when `minion_master.pub` does not exist).  Note the source's
early `else: return '', ''` when the reply carries no `sig`. -/
def decrypt_aes (R : RsaOps) (pinned : Option Bytes) (p : Payload) (master_pub : Bool) : List Bytes :=
  let key_str := R.privDecryptOaep p.aes
  match p.sig with
  | none => [[], []]
  | some sg =>
    match pinned with
    | some mpub =>
      if ¬ R.loadPubKeyOk mpub then [[], []]
      else if R.pubDecryptV mpub sg ≠ R.sha256hex key_str then [[], []]
      else decrypt_aes_tail R p key_str master_pub
    | none => decrypt_aes_tail R p key_str master_pub

/-- `Auth.verify_pubkey_sig`: only verifies when `master_sign_key_name` is a
truthy (non-empty) string. -/
def verify_pubkey_sig (R : RsaOps) (master_sign_key_name : Bytes) (message sg : Bytes) : Bool :=
  if master_sign_key_name ≠ [] then R.sigVerify message sg else false

/-- The value produced by a call to `Auth.verify_master`: a returned Python
value (`some s` for a string, `none` for Python `None` when the function
falls off the end) or an uncaught exception. -/
inductive VMRes where
  | val : Option Bytes → VMRes
  | exc : PyErr → VMRes
deriving DecidableEq

/-- Python tuple unpacking `aes, token = ...` of a two-element sequence;
raises ValueError otherwise. -/
def unpack2 (l : List Bytes) : Except PyErr (Bytes × Bytes) :=
  match l with
  | [a, b] => .ok (a, b)
  | _ => .error .valueError

/-- `Auth.verify_master`.  The pinned controller public key file content is
threaded through explicitly (second component of the result); writes to
`minion_master.pub` update it.  The `except KeyError` at the missing
`pub_sig` of a changed key logs and falls through to the unchanged-key
handling, exactly as in the source. -/
def verify_master (R : RsaOps) (O : AuthOpts) (selfToken : Bytes)
    (pinned : Option Bytes) (p : Payload) : VMRes × Option Bytes :=
  match pinned, O.open_mode with
  | some local_master_pub, false =>
    let phase1 : Option (VMRes × Option Bytes) :=
      if p.pub_key ≠ local_master_pub then
        if O.verify_master_pubkey_sign then
          match p.pub_sig with
          | some ps =>
            if verify_pubkey_sig R O.master_sign_key_name p.pub_key ps then
              let pinned' := some p.pub_key
              match unpack2 (decrypt_aes R pinned' p false) with
              | .ok (aes, _t) => some (VMRes.val (some aes), pinned')
              | .error e => some (VMRes.exc e, pinned')
            else some (VMRes.val (some []), some local_master_pub)
          | none => none
        else some (VMRes.val (some []), some local_master_pub)
      else none
    match phase1 with
    | some r => r
    | none =>
      match p.pub_sig with
      | some _ps =>
        if ¬ O.verify_master_pubkey_sign then (VMRes.val (some []), some local_master_pub)
        else
          match unpack2 (decrypt_aes R (some local_master_pub) p true) with
          | .ok (aes, token) =>
            if token ≠ selfToken then (VMRes.val (some []), some local_master_pub)
            else (VMRes.val (some aes), some local_master_pub)
          | .error _ => (VMRes.val (some []), some local_master_pub)
      | none =>
        if O.verify_master_pubkey_sign then (VMRes.val (some []), some local_master_pub)
        else (VMRes.val none, some local_master_pub)
  | _, _ =>
    if O.verify_master_pubkey_sign then
      match p.pub_sig with
      | none => (VMRes.exc .keyError, pinned)
      | some ps =>
        if verify_pubkey_sig R O.master_sign_key_name p.pub_key ps then
          let pinned' := some p.pub_key
          match unpack2 (decrypt_aes R pinned' p false) with
          | .ok (aes, _t) => (VMRes.val (some aes), pinned')
          | .error e => (VMRes.exc e, pinned')
        else (VMRes.val none, pinned)
    else
      let pinned' := some p.pub_key
      match unpack2 (decrypt_aes R pinned' p false) with
      | .ok (aes, _t) => (VMRes.val (some aes), pinned')
      | .error e => (VMRes.exc e, pinned')

/-- The value `sign_in` returns to the caller: a plain string (`'retry'`,
`'full'`) or the auth dict holding the verified session key and the publish
port. -/
inductive Creds where
  | strv : String → Creds
  | authDict : String → Nat → Creds
deriving DecidableEq

/-- The `ret` entry of the controller reply's `load`, by Python truthiness:
`False`/empty (falsy), the string `'full'`, or any other truthy value. -/
inductive RetVal where
  | falsy
  | full
  | otherTruthy
deriving DecidableEq

/-- What the reply disposition of `Auth.sign_in` (lines 499-529) does when
the reply has a `load.ret` entry. -/
inductive SignInDisp where
  | retry
  | fullRes
  | exitOK
deriving DecidableEq

/-- Lines 499-529 of `Auth.sign_in`: map `load.ret` to the returned marker
string or a terminal exit. -/
def sign_in_ret_dispo (rejected_retry : Bool) : RetVal → SignInDisp
  | .falsy => if rejected_retry then .retry else .exitOK
  | .full => .fullRes
  | .otherTruthy => .retry

/-- The marker string `sign_in` hands back for each disposition. -/
def sign_in_marker : SignInDisp → Option Creds
  | .retry => some (Creds.strv "retry")
  | .fullRes => some (Creds.strv "full")
  | .exitOK => none

/-- What one iteration of the `SAuth.__authenticate` loop does after
`sign_in` returns. -/
inductive DriverStep where
  | backoffRetry : Nat → DriverStep
  | callerExit2 : DriverStep
  | envelope : String → DriverStep
  | pyError : PyErr → DriverStep
deriving DecidableEq

/-- Lines 668-669 of `SAuth.__authenticate`: a falsy
`acceptance_wait_time_max` is replaced by the initial wait. -/
def effectiveMax (acceptance_wait_time acceptance_wait_time_max : Nat) : Nat :=
  if acceptance_wait_time_max = 0 then acceptance_wait_time else acceptance_wait_time_max

/-- Lines 685-686: after sleeping, the wait time is doubled only while it is
strictly below the (effective) maximum. -/
def nextWait (acceptance_wait_time_max awt : Nat) : Nat :=
  if awt < acceptance_wait_time_max then awt + awt else awt

/-- The wait value in effect at the start of retry number `n` (0-based):
the initial `acceptance_wait_time`, doubled under `nextWait` once per
completed retry. -/
def waitAfter (acceptance_wait_time_max a : Nat) : Nat → Nat
  | 0 => a
  | Nat.succ n => nextWait acceptance_wait_time_max (waitAfter acceptance_wait_time_max a n)

/-- One turn of the `while True` loop in `SAuth.__authenticate` (lines
671-690): only the exact string `'retry'` continues the loop; any other
result breaks out and is indexed with `creds['aes']`, which raises
TypeError on a string. -/
def authenticate_step (caller : Bool) (awt : Nat) (creds : Creds) : DriverStep :=
  if creds = Creds.strv "retry" then
    if caller then DriverStep.callerExit2 else DriverStep.backoffRetry awt
  else
    match creds with
    | Creds.strv _s => DriverStep.pyError PyErr.typeError
    | Creds.authDict aes _port => DriverStep.envelope aes

/-- The per-instance state of `Auth` relevant to the handshake token. -/
structure AuthState where
  token : Bytes

/-- `Auth.__init__` (line 246): the token is generated once, when the Auth
object is constructed, by `Crypticle.generate_key_string()` with its default
`key_size=192`. -/
def Auth.init (urandom : Nat → Bytes) : AuthState :=
  { token := Crypticle.generate_key_string urandom 192 }

/-- The sign-in request built by `Auth.minion_sign_in_payload`.  The token
entry is the OAEP encryption of `self.token` under the pinned controller
public key, omitted when loading that key fails. -/
structure SignInPayload where
  cmd : String
  idStr : String
  tokenCt : Option Bytes
  pub : String

/-- `Auth.minion_sign_in_payload`: `oaepEnc` models
`pub.public_encrypt(-, RSA.pkcs1_oaep_padding)` with `seed` the OAEP
randomness the library draws for this call; the Auth state is returned
unchanged (the method never regenerates `self.token`). -/
def minion_sign_in_payload (oaepEnc : Bytes → Nat → Bytes) (seed : Nat)
    (a : AuthState) (pinnedPubOk : Bool) (idv pubv : String) : SignInPayload × AuthState :=
  ({ cmd := "_auth", idStr := idv,
     tokenCt := if pinnedPubOk then some (oaepEnc a.token seed) else none,
     pub := pubv }, a)

/-- The options consulted by `MasterKeys.__init__`. -/
structure MKOpts where
  master_sign_pubkey : Bool
  master_use_pubkey_signature : Bool
  master_sign_key_name : String

/-- The key objects stored by `MasterKeys.__init__` (key contents stand in
for M2Crypto key objects). -/
structure MKState where
  key : String
  sign_key : Option String

/-- `gen_keys`: write a fresh private/public pair under
`<keyname>.pem` / `<keyname>.pub` in the pki dir (the filesystem is a map
from file name to content). -/
def gen_keys (freshPriv freshPub : String) (fs : String → Option String) (keyname : String) :
    String → Option String :=
  fun n =>
    if n = keyname ++ ".pem" then some freshPriv
    else if n = keyname ++ ".pub" then some freshPub
    else fs n

/-- `MasterKeys.__get_keys`: load `<name>.pem` if present; otherwise
generate a pair under `name` and then load `self.rsa_path`, which is always
`master.pem` regardless of `name`. -/
def MasterKeys.get_keys (freshPriv freshPub : String) (fs : String → Option String)
    (name : String) : Except PyErr (String × (String → Option String)) :=
  match fs (name ++ ".pem") with
  | some k => .ok (k, fs)
  | none =>
    let fs' := gen_keys freshPriv freshPub fs name
    match fs' "master.pem" with
    | some k => .ok (k, fs')
    | none => .error .ioError

/-- The key-handling slice of `MasterKeys.__init__` (lines 153-188): load or
create the controller identity key, then, when `master_sign_pubkey` is set
and `master_use_pubkey_signature` is not, load or create the signing pair
under `master_sign_key_name` (the token and pre-computed-signature branches
are not modelled; they do not touch the key objects considered here). -/
def MasterKeys.init (fresh1priv fresh1pub fresh2priv fresh2pub : String) (O : MKOpts)
    (fs0 : String → Option String) : Except PyErr (MKState × (String → Option String)) :=
  match MasterKeys.get_keys fresh1priv fresh1pub fs0 "master" with
  | .error e => .error e
  | .ok (key, fs1) =>
    if O.master_sign_pubkey ∧ ¬ O.master_use_pubkey_signature then
      match MasterKeys.get_keys fresh2priv fresh2pub fs1 O.master_sign_key_name with
      | .error e => .error e
      | .ok (sk, fs2) => .ok ({ key := key, sign_key := some sk }, fs2)
    else .ok ({ key := key, sign_key := none }, fs1)

/-- A concrete deterministic stand-in for `os.urandom` used in witnesses. -/
def u0 : Nat → Bytes := fun n => List.replicate n 0

/-- A concrete RSA oracle used in witnesses and counterexamples: every
`aes` ciphertext decrypts to the session-key string `[75, 69, 89]`
(ASCII `KEY`), and signature digests always agree. -/
def R0 : RsaOps :=
  { privDecryptOaep := fun _ => [75, 69, 89]
    pubDecryptV := fun _ _ => [68]
    sha256hex := fun _ => [68]
    loadPubKeyOk := fun _ => true
    sigVerify := fun _ _ => true }

/-- Concrete options: plain minion, no signature verification, not open. -/
def O0 : AuthOpts :=
  { open_mode := false
    verify_master_pubkey_sign := false
    always_verify_signature := false
    master_sign_key_name := [] }

/-- A concrete block-cipher/HMAC instance (identity blocks, constant tag)
used to witness the Crypticle theorems. -/
def P0 : CryptoPrims :=
  { encBlock := fun _ b => b
    decBlock := fun _ b => b
    hmacSha256 := fun _ _ => List.replicate 32 0 }

/- ------------------------------------------------------------------ -/
/- Helper lemmas about the base64 embedding.                           -/
/- ------------------------------------------------------------------ -/

theorem b64Index_b64Char : ∀ s : Nat, s < 64 → b64Index (b64Char s) = some s := by decide

theorem b64Char_ge_43 (s : Nat) : 43 ≤ b64Char s := by
  unfold b64Char; split_ifs <;> omega

theorem b64Char_ne_61 (s : Nat) : b64Char s ≠ 61 := by
  unfold b64Char; split_ifs <;> omega

theorem isB64_b64Char (s : Nat) : isB64 (b64Char s) = true := by
  unfold b64Char isB64 b64Index
  split_ifs <;> simp_all <;> omega

theorem b64decodeQuads_b64encode : ∀ l : Bytes, (∀ x ∈ l, x < 256) →
    b64decodeQuads (b64encode l) = .ok l := by
  intro l
  induction l using b64encode.induct with
  | case1 => intro _; rfl
  | case2 a b c rest ih =>
    intro hx
    have ha : a < 256 := hx a (by simp)
    have hb : b < 256 := hx b (by simp)
    have hc : c < 256 := hx c (by simp)
    have hrest : ∀ x ∈ rest, x < 256 := fun x hxr => hx x (by simp [hxr])
    have h1 := b64Index_b64Char (a / 4) (by omega)
    have h2 := b64Index_b64Char (a % 4 * 16 + b / 16) (by omega)
    have h3 := b64Index_b64Char (b % 16 * 4 + c / 64) (by omega)
    have h4 := b64Index_b64Char (c % 64) (by omega)
    simp only [b64encode, b64decodeQuads, h1, h2, h3, h4,
      if_neg (b64Char_ne_61 (b % 16 * 4 + c / 64)), if_neg (b64Char_ne_61 (c % 64)),
      ih hrest]
    congr 2
    · omega
    congr 1
    · omega
    congr 1
    omega
  | case3 a b =>
    intro hx
    have ha : a < 256 := hx a (by simp)
    have hb : b < 256 := hx b (by simp)
    have h1 := b64Index_b64Char (a / 4) (by omega)
    have h2 := b64Index_b64Char (a % 4 * 16 + b / 16) (by omega)
    have h3 := b64Index_b64Char (b % 16 * 4) (by omega)
    simp only [b64encode, b64decodeQuads, h1, h2, h3,
      if_neg (b64Char_ne_61 (b % 16 * 4))]
    norm_num
    constructor
    · omega
    omega
  | case4 a =>
    intro hx
    have ha : a < 256 := hx a (by simp)
    have h1 := b64Index_b64Char (a / 4) (by omega)
    have h2 := b64Index_b64Char (a % 4 * 16) (by omega)
    simp only [b64encode, b64decodeQuads, h1, h2]
    norm_num
    omega

theorem b64encode_mem (l : Bytes) : ∀ c ∈ b64encode l, isB64 c = true ∧ 43 ≤ c := by
  induction l using b64encode.induct with
  | case1 => intro c hc; simp [b64encode] at hc
  | case2 a b c rest ih =>
    intro x hx
    simp only [b64encode, List.mem_cons] at hx
    rcases hx with h | h | h | h | h
    all_goals first
      | (subst h; exact ⟨isB64_b64Char _, b64Char_ge_43 _⟩)
      | (exact ih x h)
  | case3 a b =>
    intro x hx
    simp only [b64encode, List.mem_cons] at hx
    rcases hx with h | h | h | h | h
    all_goals first
      | (subst h; exact ⟨isB64_b64Char _, b64Char_ge_43 _⟩)
      | (subst h; exact ⟨by decide, by decide⟩)
      | (simp at h)
  | case4 a =>
    intro x hx
    simp only [b64encode, List.mem_cons] at hx
    rcases hx with h | h | h | h | h
    all_goals first
      | (subst h; exact ⟨isB64_b64Char _, b64Char_ge_43 _⟩)
      | (subst h; exact ⟨by decide, by decide⟩)
      | (simp at h)

theorem b64decode_b64encode (l : Bytes) (hx : ∀ x ∈ l, x < 256) :
    b64decode (b64encode l) = .ok l := by
  unfold b64decode
  rw [List.filter_eq_self.mpr (fun c hc => (b64encode_mem l c hc).1)]
  exact b64decodeQuads_b64encode l hx

theorem b64encode_no_newline (l : Bytes) :
    (b64encode l).filter (fun c => c ≠ 10) = b64encode l := by
  apply List.filter_eq_self.mpr
  intro c hc
  have := (b64encode_mem l c hc).2
  simp; omega

theorem b64encode_length (l : Bytes) : (b64encode l).length = 4 * ((l.length + 2) / 3) := by
  induction l using b64encode.induct with
  | case1 => rfl
  | case2 a b c rest ih => simp [b64encode, ih]; omega
  | case3 a b => simp [b64encode]
  | case4 a => simp [b64encode]

/- ------------------------------------------------------------------ -/
/- Helper lemmas about xor accumulation and CBC.                       -/
/- ------------------------------------------------------------------ -/

theorem lor_eq_zero {a b : Nat} (h : a ||| b = 0) : a = 0 ∧ b = 0 := by
  constructor
  · apply Nat.zero_of_testBit_eq_false
    intro i
    have hh := congrArg (fun n => Nat.testBit n i) h
    simp only [Nat.testBit_lor, Nat.zero_testBit, Bool.or_eq_false_iff] at hh
    exact hh.1
  · apply Nat.zero_of_testBit_eq_false
    intro i
    have hh := congrArg (fun n => Nat.testBit n i) h
    simp only [Nat.testBit_lor, Nat.zero_testBit, Bool.or_eq_false_iff] at hh
    exact hh.2

theorem foldl_lor_eq_zero {l : List Nat} {acc : Nat}
    (h : l.foldl (fun r z => r ||| z) acc = 0) : acc = 0 ∧ ∀ x ∈ l, x = 0 := by
  induction l generalizing acc with
  | nil => exact ⟨h, by simp⟩
  | cons a l ih =>
    simp only [List.foldl_cons] at h
    obtain ⟨hacc, hall⟩ := ih h
    obtain ⟨h1, h2⟩ := lor_eq_zero hacc
    exact ⟨h1, by intro x hx; rcases List.mem_cons.mp hx with rfl | hx; exact h2; exact hall x hx⟩

theorem foldl_lor_zero_of_zero {l : List Nat} (h : ∀ x ∈ l, x = 0) :
    l.foldl (fun r z => r ||| z) 0 = 0 := by
  induction l with
  | nil => rfl
  | cons a l ih =>
    have ha : a = 0 := h a (by simp)
    simp only [List.foldl_cons, ha]
    exact ih (fun x hx => h x (by simp [hx]))

theorem zipWith_xor_self (l : List Nat) : ∀ x ∈ List.zipWith (fun x y => x ^^^ y) l l, x = 0 := by
  induction l with
  | nil => simp
  | cons a l ih =>
    intro x hx
    simp only [List.zipWith_cons_cons, List.mem_cons] at hx
    rcases hx with rfl | hx
    · exact Nat.xor_self a
    · exact ih x hx

theorem zipWith_xor_eq (a b : List Nat) (hlen : a.length = b.length)
    (h : ∀ x ∈ List.zipWith (fun x y => x ^^^ y) a b, x = 0) : a = b := by
  induction a generalizing b with
  | nil => cases b with
    | nil => rfl
    | cons y ys => simp at hlen
  | cons x xs ih =>
    cases b with
    | nil => simp at hlen
    | cons y ys =>
      simp only [List.zipWith_cons_cons, List.mem_cons] at h
      have hxy : x = y := Nat.xor_eq_zero.mp (h (x ^^^ y) (Or.inl rfl))
      have : xs = ys := by
        apply ih ys (by simpa using hlen)
        intro z hz
        exact h z (Or.inr hz)
      rw [hxy, this]

theorem xorB_length (a b : Bytes) : (xorB a b).length = min a.length b.length := by
  simp [xorB]

theorem xorB_cancel (a b : Bytes) (h : a.length = b.length) : xorB (xorB a b) b = a := by
  unfold xorB
  induction a generalizing b with
  | nil => cases b <;> simp at h ⊢
  | cons x xs ih =>
    cases b with
    | nil => simp at h
    | cons y ys =>
      simp only [List.zipWith_cons_cons]
      rw [Nat.xor_cancel_right, ih ys (by simpa using h)]

theorem chunks16_nil : chunks16 [] = [] := by
  rw [chunks16]
  simp

theorem chunks16_append16 (a rest : Bytes) (h : a.length = 16) :
    chunks16 (a ++ rest) = a :: chunks16 rest := by
  rw [chunks16]
  have hne : ¬ (a ++ rest = []) := by
    intro hh
    have := congrArg List.length hh
    simp [h] at this
  rw [dif_neg hne]
  have ht : (a ++ rest).take 16 = a := by
    rw [← h]; exact List.take_left a rest
  have hd : (a ++ rest).drop 16 = rest := by
    rw [← h]; exact List.drop_left a rest
  rw [ht, hd]

theorem chunks16_flatten_inv (bs : List Bytes) (h : ∀ b ∈ bs, b.length = 16) :
    chunks16 bs.flatten = bs := by
  induction bs with
  | nil => exact chunks16_nil
  | cons b bs ih =>
    rw [List.flatten_cons, chunks16_append16 b _ (h b (by simp))]
    rw [ih (fun x hx => h x (by simp [hx]))]

theorem chunks16_spec (n : Nat) : ∀ l : Bytes, l.length = 16 * n →
    (∀ b ∈ chunks16 l, b.length = 16) ∧ (chunks16 l).flatten = l := by
  induction n with
  | zero =>
    intro l hl
    have : l = [] := List.length_eq_zero.mp (by omega)
    subst this
    simp [chunks16_nil]
  | succ k ih =>
    intro l hl
    have hne : ¬ (l = []) := by
      intro hh; subst hh; simp at hl
    rw [chunks16, dif_neg hne]
    have htl : (l.take 16).length = 16 := by
      simp only [List.length_take]
      omega
    have hdl : (l.drop 16).length = 16 * k := by
      simp [List.length_drop]; omega
    obtain ⟨ih1, ih2⟩ := ih (l.drop 16) hdl
    constructor
    · intro b hb
      rcases List.mem_cons.mp hb with rfl | hb
      · exact htl
      · exact ih1 b hb
    · simp only [List.flatten_cons, ih2]
      exact List.take_append_drop 16 l

theorem cbcEnc_lengths (E : Bytes → Bytes) (hE : ∀ b, b.length = 16 → (E b).length = 16) :
    ∀ (bs : List Bytes) (prev : Bytes), prev.length = 16 → (∀ b ∈ bs, b.length = 16) →
      ∀ c ∈ cbcEnc E prev bs, c.length = 16 := by
  intro bs
  induction bs with
  | nil => intro prev _ _ c hc; simp [cbcEnc] at hc
  | cons b bs ih =>
    intro prev hprev hbs c hc
    have hb : b.length = 16 := hbs b (by simp)
    have hxl : (xorB b prev).length = 16 := by
      rw [xorB_length, hb, hprev]; rfl
    have hcl : (E (xorB b prev)).length = 16 := hE _ hxl
    simp only [cbcEnc, List.mem_cons] at hc
    rcases hc with rfl | hc
    · exact hcl
    · exact ih (E (xorB b prev)) hcl (fun x hx => hbs x (by simp [hx])) c hc

theorem cbcDec_cbcEnc (E D : Bytes → Bytes)
    (hED : ∀ b, b.length = 16 → D (E b) = b)
    (hE : ∀ b, b.length = 16 → (E b).length = 16) :
    ∀ (bs : List Bytes) (prev : Bytes), prev.length = 16 → (∀ b ∈ bs, b.length = 16) →
      cbcDec D prev (cbcEnc E prev bs) = bs := by
  intro bs
  induction bs with
  | nil => intro prev _ _; rfl
  | cons b bs ih =>
    intro prev hprev hbs
    have hb : b.length = 16 := hbs b (by simp)
    have hxl : (xorB b prev).length = 16 := by
      rw [xorB_length, hb, hprev]; rfl
    have hcl : (E (xorB b prev)).length = 16 := hE _ hxl
    simp only [cbcEnc, cbcDec]
    rw [hED _ hxl, xorB_cancel b prev (by omega)]
    rw [ih (E (xorB b prev)) hcl (fun x hx => hbs x (by simp [hx]))]

/- ------------------------------------------------------------------ -/
/- Claim theorems.                                                     -/
/- ------------------------------------------------------------------ -/

/-- C1: for every byte string `m` and valid session key string, decrypting
the result of encrypting `m` under the Envelope returns `m` exactly, for any
IV chosen during encryption, assuming the external AES block cipher is a
16-byte-block permutation and HMAC-SHA256 returns 32 bytes. -/
theorem C1_envelope_roundtrip (P : CryptoPrims) (kstr : Bytes) (aes_key hmac_key : Bytes)
    (iv m : Bytes)
    (hkeys : Crypticle.extract_keys kstr 192 = .ok (aes_key, hmac_key))
    (hE : ∀ b, b.length = 16 → (P.encBlock aes_key b).length = 16)
    (hED : ∀ b, b.length = 16 → P.decBlock aes_key (P.encBlock aes_key b) = b)
    (hH : ∀ k msg, (P.hmacSha256 k msg).length = 32)
    (hiv : iv.length = 16) :
    Crypticle.decrypt P aes_key hmac_key (Crypticle.encrypt P aes_key hmac_key iv m) = .ok m := by
  have hpadne : 1 ≤ 16 - m.length % 16 := by omega
  have hpad16 : 16 - m.length % 16 ≤ 16 := by omega
  have hpk : pkcs7Pad m = m ++ List.replicate (16 - m.length % 16) (16 - m.length % 16) := by
    simp [pkcs7Pad, AES_BLOCK_SIZE]
  have hpadlen : (pkcs7Pad m).length = m.length + (16 - m.length % 16) := by
    rw [hpk]; simp
  have hmod : (pkcs7Pad m).length % 16 = 0 := by
    rw [hpadlen]; omega
  have hpad16N : (pkcs7Pad m).length = 16 * ((pkcs7Pad m).length / 16) := by
    omega
  obtain ⟨hbl, hfl⟩ := chunks16_spec ((pkcs7Pad m).length / 16) (pkcs7Pad m) hpad16N
  have hctb : ∀ c ∈ cbcEnc (P.encBlock aes_key) iv (chunks16 (pkcs7Pad m)), c.length = 16 :=
    cbcEnc_lengths (P.encBlock aes_key) hE (chunks16 (pkcs7Pad m)) iv hiv hbl
  have hmac32 : ∀ msg : Bytes, (P.hmacSha256 hmac_key msg).length = 32 := fun msg => hH _ _
  have henc : Crypticle.encrypt P aes_key hmac_key iv m =
      (iv ++ (cbcEnc (P.encBlock aes_key) iv (chunks16 (pkcs7Pad m))).flatten) ++
        P.hmacSha256 hmac_key
          (iv ++ (cbcEnc (P.encBlock aes_key) iv (chunks16 (pkcs7Pad m))).flatten) := by
    simp [Crypticle.encrypt]
  rw [henc]
  set body := iv ++ (cbcEnc (P.encBlock aes_key) iv (chunks16 (pkcs7Pad m))).flatten with hbody
  set mac := P.hmacSha256 hmac_key body with hmac
  have hsl : (body ++ mac).length - SIG_SIZE = body.length := by
    simp [SIG_SIZE, hmac32 body, hmac]
  unfold Crypticle.decrypt
  rw [hsl, List.drop_left, List.take_left]
  rw [if_neg (by simp)]
  rw [if_neg (by
    simp only [ne_eq, not_not]
    exact foldl_lor_zero_of_zero (zipWith_xor_self mac))]
  have hivtake : body.take AES_BLOCK_SIZE = iv := by
    rw [hbody, AES_BLOCK_SIZE, ← hiv, List.take_left]
  have hivdrop : body.drop AES_BLOCK_SIZE =
      (cbcEnc (P.encBlock aes_key) iv (chunks16 (pkcs7Pad m))).flatten := by
    rw [hbody, AES_BLOCK_SIZE, ← hiv, List.drop_left]
  rw [hivtake, hivdrop]
  have hcbc := cbcDec_cbcEnc (P.encBlock aes_key) (P.decBlock aes_key) hED hE
    (chunks16 (pkcs7Pad m)) iv hiv hbl
  have hlast : (pkcs7Pad m).getLast? = some (16 - m.length % 16) := by
    rw [hpk, List.getLast?_append]
    rw [List.getLast?_replicate]
    rw [if_neg (by omega)]
    rfl
  simp only [chunks16_flatten_inv _ hctb, hcbc, hfl, hlast]
  rw [if_neg (by omega)]
  have htk : (pkcs7Pad m).length - (16 - m.length % 16) = m.length := by
    omega
  rw [htk, hpk, List.take_left]

/-- Witness for C1: a concrete valid key string, key pair, IV and message,
with the identity block cipher standing in for AES. -/
theorem C1_witness :
    Crypticle.extract_keys (b64encode (List.replicate 56 0)) 192
        = .ok (List.replicate 24 0, List.replicate 32 0)
    ∧ Crypticle.decrypt P0 (List.replicate 24 0) (List.replicate 32 0)
        (Crypticle.encrypt P0 (List.replicate 24 0) (List.replicate 32 0)
          (List.replicate 16 0) [104, 105]) = .ok [104, 105] :=
  ⟨rfl,
    C1_envelope_roundtrip P0 (b64encode (List.replicate 56 0))
      (List.replicate 24 0) (List.replicate 32 0) (List.replicate 16 0) [104, 105]
      rfl
      (fun b hb => by simpa [P0] using hb)
      (fun b _ => rfl)
      (fun k msg => by simp [P0])
      (by simp)⟩

/-- C4: for every input whose trailing 32 bytes differ from the HMAC-SHA256
of the remaining prefix, `Crypticle.decrypt` fails with the authentication
error, and this holds for every block cipher whatsoever — the AES layer is
never consulted, so no plaintext (even partial) is produced. -/
theorem C4_decrypt_rejects_bad_mac (encB decB : Bytes → Bytes → Bytes)
    (hmacF : Bytes → Bytes → Bytes) (aes_key hmac_key data : Bytes)
    (h32 : (hmacF hmac_key (data.take (data.length - 32))).length = 32)
    (hlen : 32 ≤ data.length)
    (hne : data.drop (data.length - 32) ≠ hmacF hmac_key (data.take (data.length - 32))) :
    Crypticle.decrypt ⟨encB, decB, hmacF⟩ aes_key hmac_key data
      = .error .authenticationError := by
  have hsig : (data.drop (data.length - 32)).length = 32 := by
    simp only [List.length_drop]; omega
  simp only [Crypticle.decrypt, SIG_SIZE]
  rw [if_neg (by rw [h32, hsig]; simp)]
  rw [if_pos]
  intro h0
  obtain ⟨-, hall⟩ := foldl_lor_eq_zero h0
  exact hne ((zipWith_xor_eq _ _ (by rw [h32, hsig]) hall).symm)

/-- Witness for C4: a concrete 33-byte input whose trailing 32 bytes differ
from the recomputed tag is rejected. -/
theorem C4_witness :
    ((P0.hmacSha256 (List.replicate 32 0)
        ((List.replicate 33 1).take ((List.replicate 33 1).length - 32))).length = 32)
    ∧ 32 ≤ (List.replicate 33 1).length
    ∧ (List.replicate 33 1).drop ((List.replicate 33 1).length - 32)
        ≠ P0.hmacSha256 (List.replicate 32 0)
            ((List.replicate 33 1).take ((List.replicate 33 1).length - 32))
    ∧ Crypticle.decrypt ⟨P0.encBlock, P0.decBlock, P0.hmacSha256⟩ []
        (List.replicate 32 0) (List.replicate 33 1) = .error .authenticationError :=
  ⟨by decide, by decide, by decide,
    C4_decrypt_rejects_bad_mac P0.encBlock P0.decBlock P0.hmacSha256 [] (List.replicate 32 0)
      (List.replicate 33 1) (by decide) (by decide) (by decide)⟩

/-- C9: for every key size `n`, `extract_keys (generate_key_string n) n`
returns buffers of lengths exactly `(n / 8, 32)`, and the generated key
string is a newline-free base64 encoding of the `n / 8 + 32` random
bytes. -/
theorem C9_generate_extract (urandom : Nat → Bytes) (n : Nat)
    (hlen : (urandom (n / 8 + 32)).length = n / 8 + 32)
    (hbyte : ∀ x ∈ urandom (n / 8 + 32), x < 256) :
    Crypticle.extract_keys (Crypticle.generate_key_string urandom n) n
        = .ok ((urandom (n / 8 + 32)).take (n / 8), (urandom (n / 8 + 32)).drop (n / 8))
    ∧ 10 ∉ Crypticle.generate_key_string urandom n
    ∧ b64decode (Crypticle.generate_key_string urandom n) = .ok (urandom (n / 8 + 32))
    ∧ ((urandom (n / 8 + 32)).take (n / 8)).length = n / 8
    ∧ ((urandom (n / 8 + 32)).drop (n / 8)).length = 32 := by
  have hgen : Crypticle.generate_key_string urandom n = b64encode (urandom (n / 8 + 32)) := by
    unfold Crypticle.generate_key_string SIG_SIZE
    exact b64encode_no_newline _
  have hdec : b64decode (Crypticle.generate_key_string urandom n) = .ok (urandom (n / 8 + 32)) := by
    rw [hgen]; exact b64decode_b64encode _ hbyte
  refine ⟨?_, ?_, hdec, ?_, ?_⟩
  · unfold Crypticle.extract_keys SIG_SIZE
    rw [hdec]
    simp only [hlen, if_pos rfl]
    congr 2
  · intro hmem
    rw [hgen] at hmem
    have := (b64encode_mem _ 10 hmem).2
    omega
  · simp [List.length_take, hlen]
  · simp [List.length_drop, hlen]

/-- Witness for C9: the default key size 192 with a concrete byte source. -/
theorem C9_witness :
    Crypticle.extract_keys (Crypticle.generate_key_string u0 192) 192
        = .ok ((u0 (192 / 8 + 32)).take (192 / 8), (u0 (192 / 8 + 32)).drop (192 / 8))
    ∧ 10 ∉ Crypticle.generate_key_string u0 192
    ∧ b64decode (Crypticle.generate_key_string u0 192) = .ok (u0 (192 / 8 + 32))
    ∧ ((u0 (192 / 8 + 32)).take (192 / 8)).length = 192 / 8
    ∧ ((u0 (192 / 8 + 32)).drop (192 / 8)).length = 32 :=
  C9_generate_extract u0 192 (by simp [u0])
    (by intro x hx; simp [u0, List.mem_replicate] at hx; omega)

/-- C2: in `Auth.decrypt_aes`, a reply with no `sig` entry returns the empty
pair `('','')` even on first contact (`master_pub=False`) — the early
`else: return '', ''` fires before the token/first-contact handling.  The
second conjunct evaluates the lines 338-346 continuation on the same
decrypted session key, showing the handshake would have produced
`(key_str, '')` had the no-`sig` reply been allowed to proceed. -/
theorem C2_no_sig_yields_empty_pair :
    decrypt_aes R0 (some [77])
        { aes := [1], sig := none, token := none, pub_key := [77], pub_sig := none } false
      = [[], []]
    ∧ decrypt_aes_tail R0
        { aes := [1], sig := none, token := none, pub_key := [77], pub_sig := none }
        (R0.privDecryptOaep [1]) false
      = [[75, 69, 89], []] := by
  constructor <;> rfl

/-- C2 (general form): `decrypt_aes` returns `('','')` for every reply that
lacks a `sig` entry, regardless of `master_pub`. -/
theorem C2_no_sig_general (R : RsaOps) (pinned : Option Bytes) (p : Payload)
    (master_pub : Bool) (h : p.sig = none) :
    decrypt_aes R pinned p master_pub = [[], []] := by
  simp [decrypt_aes, h]

/-- Witness for the general C2 evaluation. -/
theorem C2_no_sig_general_witness :
    decrypt_aes R0 (some [77])
        { aes := [3], sig := none, token := none, pub_key := [77], pub_sig := none } true
      = [[], []] :=
  C2_no_sig_general R0 (some [77])
    { aes := [3], sig := none, token := none, pub_key := [77], pub_sig := none } true rfl

/-- C3 (amended): `verify_master` can also return Python `None` — in
particular on the steady-state path where a pinned key exists and matches,
the reply carries no `pub_sig`, and `verify_master_pubkey_sign` is off, the
function falls off the end of the `if` ladder. -/
theorem C3_amended_none_path (R : RsaOps) (O : AuthOpts) (selfToken pub : Bytes)
    (p : Payload)
    (h1 : O.open_mode = false) (h2 : O.verify_master_pubkey_sign = false)
    (h3 : p.pub_key = pub) (h4 : p.pub_sig = none) :
    verify_master R O selfToken (some pub) p = (VMRes.val none, some pub) := by
  obtain ⟨om, vs, av, mskn⟩ := O
  simp only at h1 h2
  subst h1 h2
  simp [verify_master, h3, h4]

/-- Counterexample to C3 as stated: on a concrete reply whose `pub_key`
matches the pinned key, `verify_master` produces the Python value `None`,
which is neither the session-key string nor the empty string. -/
theorem C3_counterexample :
    verify_master R0 O0 [9] (some [77])
        { aes := [1], sig := none, token := none, pub_key := [77], pub_sig := none }
      = (VMRes.val none, some [77]) := rfl

/-- Witness for the amended C3 theorem. -/
theorem C3_witness :
    verify_master R0 O0 [9] (some [77])
        { aes := [2], sig := none, token := none, pub_key := [77], pub_sig := none }
      = (VMRes.val none, some [77]) :=
  C3_amended_none_path R0 O0 [9] [77] _ rfl rfl rfl rfl

/-- C5: with a pinned key, `open_mode` off, a changed `pub_key`, signature
verification disabled and no `pub_sig` in the reply, `verify_master` returns
the empty string and leaves the pinned key file unchanged. -/
theorem C5_key_changed_no_sig_rejected (R : RsaOps) (O : AuthOpts) (selfToken pub : Bytes)
    (p : Payload)
    (h1 : O.open_mode = false) (h2 : O.verify_master_pubkey_sign = false)
    (h3 : p.pub_key ≠ pub) (h4 : p.pub_sig = none) :
    verify_master R O selfToken (some pub) p = (VMRes.val (some []), some pub) := by
  obtain ⟨om, vs, av, mskn⟩ := O
  simp only at h1 h2
  subst h1 h2
  simp [verify_master, h3, h4]

/-- Witness for C5: a concrete changed key is rejected without a write. -/
theorem C5_witness :
    verify_master R0 O0 [9] (some [77])
        { aes := [1], sig := none, token := none, pub_key := [78], pub_sig := none }
      = (VMRes.val (some []), some [77]) :=
  C5_key_changed_no_sig_rejected R0 O0 [9] [77] _ rfl rfl (by decide) rfl

/-- Counterexample to C6 as stated: with initial wait 3 and cap 4, the wait
used on the second retry is 6, which exceeds the cap. -/
theorem C6_counterexample :
    waitAfter (effectiveMax 3 4) 3 1 = 6 ∧ ¬ (waitAfter (effectiveMax 3 4) 3 1 ≤ 4) := by
  constructor <;> decide

/-- C6 (amended): the wait is doubled only while strictly below the
effective cap, so every wait value used is bounded by
`max (initial wait) (2 * cap - 2)` — not by the cap itself. -/
theorem C6_amended (a M n : Nat) :
    waitAfter (effectiveMax a M) a n ≤ max a (2 * effectiveMax a M - 2) := by
  induction n with
  | zero => simp [waitAfter]
  | succ k ih =>
    simp only [waitAfter, nextWait]
    split_ifs with h
    · omega
    · exact ih

/-- Counterexample to C7 as stated: the token set at `Auth.__init__` is a
76-character base64 string (not 32 bytes), and with the OAEP oracle fixed,
two consecutive sign-in payloads from the same agent carry the very same
token ciphertext — the token is never regenerated per attempt. -/
theorem C7_counterexample :
    (Auth.init u0).token.length = 76
    ∧ (minion_sign_in_payload (fun t _ => t) 1 (Auth.init u0) true "i" "p").1.tokenCt
        = (minion_sign_in_payload (fun t _ => t) 2
            ((minion_sign_in_payload (fun t _ => t) 1 (Auth.init u0) true "i" "p").2)
            true "i" "p").1.tokenCt := by
  constructor
  · decide
  · rfl

/-- C7 (amended): the token is generated once per Auth instance as the
76-character base64 encoding of 56 random bytes; every sign-in payload
OAEP-encrypts that same fixed token plaintext (with per-call library
randomness), and the payload construction never changes the state. -/
theorem C7_amended (u : Nat → Bytes) (oaepEnc : Bytes → Nat → Bytes)
    (idv pubv : String) (s1 s2 : Nat) (hu : (u 56).length = 56) :
    (Auth.init u).token.length = 76
    ∧ (minion_sign_in_payload oaepEnc s1 (Auth.init u) true idv pubv).1.tokenCt
        = some (oaepEnc (Auth.init u).token s1)
    ∧ (minion_sign_in_payload oaepEnc s1 (Auth.init u) true idv pubv).2 = Auth.init u
    ∧ (minion_sign_in_payload oaepEnc s2
        ((minion_sign_in_payload oaepEnc s1 (Auth.init u) true idv pubv).2)
        true idv pubv).1.tokenCt
        = some (oaepEnc (Auth.init u).token s2) := by
  refine ⟨?_, rfl, rfl, rfl⟩
  show (Crypticle.generate_key_string u 192).length = 76
  unfold Crypticle.generate_key_string SIG_SIZE
  have h56 : (192 : Nat) / 8 + 32 = 56 := by norm_num
  rw [h56, b64encode_no_newline, b64encode_length, hu]

/-- Witness for the amended C7 theorem. -/
theorem C7_amended_witness :
    (Auth.init u0).token.length = 76
    ∧ (minion_sign_in_payload (fun t _ => t) 5 (Auth.init u0) true "m" "q").1.tokenCt
        = some ((fun (t : Bytes) (_ : Nat) => t) (Auth.init u0).token 5)
    ∧ (minion_sign_in_payload (fun t _ => t) 5 (Auth.init u0) true "m" "q").2 = Auth.init u0
    ∧ (minion_sign_in_payload (fun t _ => t) 6
        ((minion_sign_in_payload (fun t _ => t) 5 (Auth.init u0) true "m" "q").2)
        true "m" "q").1.tokenCt
        = some ((fun (t : Bytes) (_ : Nat) => t) (Auth.init u0).token 6) :=
  C7_amended u0 (fun t _ => t) "m" "q" 5 6 (by simp [u0])

/-- Counterexample to C8 as stated: on a FULL result the Session Driver does
not back off and retry — the loop breaks and the subsequent `creds['aes']`
string indexing raises a TypeError. -/
theorem C8_counterexample :
    authenticate_step false 10 (Creds.strv "full") = DriverStep.pyError PyErr.typeError
    ∧ authenticate_step false 10 (Creds.strv "full") ≠ DriverStep.backoffRetry 10 := by
  constructor <;> decide

/-- C8 (amended): a controller reply with `load.ret == 'full'` makes
`sign_in` return the string `'full'`; the Session Driver then leaves its
retry loop without backing off, raises a TypeError at `creds['aes']`, and in
particular never constructs an Envelope from a FULL result. -/
theorem C8_amended (rr : Bool) (caller : Bool) (awt : Nat) :
    sign_in_ret_dispo rr RetVal.full = SignInDisp.fullRes
    ∧ sign_in_marker SignInDisp.fullRes = some (Creds.strv "full")
    ∧ authenticate_step caller awt (Creds.strv "full") = DriverStep.pyError PyErr.typeError
    ∧ ∀ aes : String, authenticate_step caller awt (Creds.strv "full") ≠ DriverStep.envelope aes := by
  refine ⟨rfl, rfl, ?_, ?_⟩
  · unfold authenticate_step
    rw [if_neg (by decide)]
  · intro aes h
    unfold authenticate_step at h
    rw [if_neg (by decide)] at h
    cases h

/-- C10: with `master_sign_pubkey` on, `master_use_pubkey_signature` off and
no `<master_sign_key_name>.pem` on disk, `MasterKeys.__init__` generates the
signing pair under the configured name, but the object stored as `sign_key`
is the one loaded from `master.pem` (the controller identity key), because
`__get_keys` reloads `self.rsa_path` after generating. -/
theorem C10_sign_key_is_master_key (f1p f1b f2p f2b mk snm : String)
    (fs0 : String → Option String)
    (hm : fs0 "master.pem" = some mk)
    (hnone : fs0 (snm ++ ".pem") = none)
    (h1 : snm ++ ".pem" ≠ "master.pem")
    (h3 : snm ++ ".pub" ≠ "master.pem") :
    MasterKeys.init f1p f1b f2p f2b ⟨true, false, snm⟩ fs0
      = .ok ({ key := mk, sign_key := some mk }, gen_keys f2p f2b fs0 snm)
    ∧ gen_keys f2p f2b fs0 snm (snm ++ ".pem") = some f2p
    ∧ gen_keys f2p f2b fs0 snm (snm ++ ".pub") = some f2b := by
  have h5 : snm ++ ".pub" ≠ snm ++ ".pem" := by
    intro hh
    have hd := congrArg String.data hh
    simp only [String.data_append] at hd
    have := List.append_cancel_left hd
    simp at this
  have hmm : ("master" : String) ++ ".pem" = "master.pem" := rfl
  refine ⟨?_, ?_, ?_⟩
  · unfold MasterKeys.init MasterKeys.get_keys
    rw [hmm, hm]
    simp only [true_and, Bool.not_false, if_pos]
    rw [hnone]
    simp only []
    unfold gen_keys
    rw [if_neg (Ne.symm h1), if_neg (Ne.symm h3), hm]
    simp
  · unfold gen_keys
    rw [if_pos rfl]
  · unfold gen_keys
    rw [if_neg h5, if_pos rfl]

/-- Witness for C10: a concrete pki dir holding only `master.pem`. -/
theorem C10_witness :
    MasterKeys.init "P1" "B1" "P2" "B2" ⟨true, false, "sign"⟩
        (fun n => if n = "master.pem" then some "MK" else none)
      = .ok ({ key := "MK", sign_key := some "MK" },
          gen_keys "P2" "B2" (fun n => if n = "master.pem" then some "MK" else none) "sign")
    ∧ gen_keys "P2" "B2" (fun n => if n = "master.pem" then some "MK" else none) "sign"
        ("sign" ++ ".pem") = some "P2"
    ∧ gen_keys "P2" "B2" (fun n => if n = "master.pem" then some "MK" else none) "sign"
        ("sign" ++ ".pub") = some "B2" :=
  C10_sign_key_is_master_key "P1" "B1" "P2" "B2" "MK" "sign"
    (fun n => if n = "master.pem" then some "MK" else none)
    (by decide) (by decide) (by decide) (by decide)
